import Mathlib

/-!
Shallow embedding of `command_line_parser.hpp` (class `univang::CommandLineParser`).
Tokens, names and accumulated text are modelled as explicit character lists;
the registry is a list of `Opt` records; the argv loop of
`CommandLineParser::parse` becomes the step function `step` iterated by
`runTokens`.  Arithmetic bindings go through a model of `std::from_chars`
(`fromCharsInt` matches the pattern; `parseArith` adds the representability
check of the 32-bit `int` destination the repository instantiates, with
`result_out_of_range` leaving the destination unmodified).
-/

namespace CLP

/-- Characters of a token or of stored text. -/
abbrev Str := List Char

/-- Greedy run of decimal digits at the head of the input, as matched by the
numeric conversion of the source. -/
def digitRun : Str → Str
  | [] => []
  | c :: cs => if c.isDigit then c :: digitRun cs else []

/-- Numeric value of a digit run. -/
def digitsToNat (ds : Str) : Nat :=
  ds.foldl (fun a c => a * 10 + (c.toNat - 48)) 0

/-- Pattern match of `std::from_chars` for an integer destination as used on
line 48 of the source: an optional minus sign followed by at least one
decimal digit; returns the matched pattern's value (as an unbounded integer;
representability in the destination type is checked by `parseArith`) and the
number of characters consumed, or `none` when no digit follows the optional
sign (`std::errc::invalid_argument`, in which case the destination is left
unmodified). -/
def fromCharsInt : Str → Option (Int × Nat)
  | '-' :: rest =>
    let ds := digitRun rest
    if ds = [] then none else some (-(digitsToNat ds : Int), ds.length + 1)
  | s =>
    let ds := digitRun s
    if ds = [] then none else some ((digitsToNat ds : Int), ds.length)

/-- Smallest value of the 32-bit `int` destination the repository binds. -/
def intMin : Int := -2147483648

/-- Largest value of the 32-bit `int` destination the repository binds. -/
def intMax : Int := 2147483647

/-- Arithmetic `parse(str, value)` of lines 45-50 for the repository's
`T = int` (32-bit): `std::from_chars` stores its result only when the
matched pattern's value is representable in the destination; an overflowing
pattern yields `result_out_of_range` with the destination unmodified.  The
wrapper succeeds only when `res.ec == std::errc{}` and
`res.ptr == str.data() + str.size()`, i.e. the value was stored and the
whole token was consumed. -/
def parseArith (s : Str) (old : Int) : Int × Bool :=
  match fromCharsInt s with
  | none => (old, false)
  | some (v, n) =>
    if v < intMin ∨ intMax < v then (old, false)
    else (v, n == s.length)

/-- Caller-owned storage reached through the type-erased `void* value`
pointer of an `Option`; one constructor per concrete binding type
instantiated by the repository (bool flag, string, int, `optional<int>`,
`vector<string_view>`, `vector<int>`). -/
inductive Store
  | flagStore (b : Bool)
  | strStore (s : Str)
  | intStore (v : Int)
  | optIntStore (v : Option Int)
  | strListStore (l : List Str)
  | intListStore (l : List Int)
deriving DecidableEq

/-- The registered `ParseFn` applied to the bound storage: `parseFlag` for
flags, `parseValue<T>` for scalars (string assignment always succeeds,
arithmetic goes through `parseArith`, `optional<T>` first `emplace()`s a
value-initialized element), `parseList<T>` for vectors (`emplace_back()` a
value-initialized element, then scalar-parse into it). -/
def Store.applyParse : Store → Str → Store × Bool
  | .flagStore _, _ => (.flagStore true, true)
  | .strStore _, s => (.strStore s, true)
  | .intStore v, s =>
    let r := parseArith s v
    (.intStore r.1, r.2)
  | .optIntStore _, s =>
    let r := parseArith s 0
    (.optIntStore (some r.1), r.2)
  | .strListStore l, s => (.strListStore (l ++ [s]), true)
  | .intListStore l, s =>
    let r := parseArith s 0
    (.intListStore (l ++ [r.1]), r.2)

/-- The `OptionType` enumeration of the source. -/
inductive OptionType
  | param
  | flag
  | list
deriving DecidableEq

/-- One registered option (`struct Option`), with its bound storage held
inline in place of the `void*`/function-pointer pair. -/
structure Opt where
  type : OptionType
  parsed : Bool
  required : Bool
  store : Store
  name : Str
  flags : Str
  help : Str
  hint : Str
  position : Int
deriving DecidableEq

instance : Inhabited Opt := ⟨⟨.param, false, false, .intStore 0, [], [], [], [], 0⟩⟩

/-- Split a character list at the first occurrence of `ch`
(`std::string_view::find` plus the two `substr` calls). -/
def splitFirst (ch : Char) : Str → Option (Str × Str)
  | [] => none
  | c :: cs =>
    if c = ch then some ([], cs)
    else
      match splitFirst ch cs with
      | none => none
      | some (a, b) => some (c :: a, b)

/-- The `Option` constructor of lines 132-151: a leading `+` marks the option
required, then the spec splits on commas into name, flags and hint. -/
def mkOption (type : OptionType) (store : Store) (spec : Str)
    (help : Str) (position : Int) : Opt :=
  let required := match spec with | '+' :: _ => true | _ => false
  let spec1 := if required then spec.tail else spec
  match splitFirst ',' spec1 with
  | none => ⟨type, false, required, store, spec1, [], help, [], position⟩
  | some (nm, rest) =>
    match splitFirst ',' rest with
    | none => ⟨type, false, required, store, nm, rest, help, [], position⟩
    | some (fl, hn) => ⟨type, false, required, store, nm, fl, help, hn, position⟩

/-- Read the registry at an index (a pointer into `options_`; out-of-range
reads never occur in the modelled runs and return a default). -/
def getAt : List Opt → Nat → Opt
  | [], _ => default
  | o :: _, 0 => o
  | _ :: os, n + 1 => getAt os n

/-- Write the registry at an index (mutation through a pointer into
`options_`). -/
def updateAt : List Opt → Nat → (Opt → Opt) → List Opt
  | [], _, _ => []
  | o :: os, 0, f => f o :: os
  | o :: os, i + 1, f => o :: updateAt os i f

/-- First index at or after `n` whose option satisfies `p`. -/
def findIdxFrom (p : Opt → Bool) : List Opt → Nat → Option Nat
  | [], _ => none
  | o :: os, i => if p o then some i else findIdxFrom p os (i + 1)

/-- Lookup by long name (`findOption(std::string_view)`, lines 176-187). -/
def findOptionName (opts : List Opt) (nm : Str) : Option Nat :=
  findIdxFrom (fun o => o.name == nm) opts 0

/-- Lookup by short-flag character (`findOption(char)`, lines 164-174). -/
def findOptionChar (opts : List Opt) (c : Char) : Option Nat :=
  findIdxFrom (fun o => o.flags.contains c) opts 0

/-- Loop body of `findOption(int position)` (lines 153-162): return the first
exact position match, while remembering in the accumulator the most recent
option whose `position` is `-1`. -/
def findOptionPosAux : List Opt → Nat → Int → Option Nat → Option Nat
  | [], _, _, acc => acc
  | o :: os, i, p, acc =>
    if o.position = p then some i
    else findOptionPosAux os (i + 1) p (if o.position = -1 then some i else acc)

/-- Positional lookup `findOption(int position)`. -/
def findOptionPos (opts : List Opt) (p : Int) : Option Nat :=
  findOptionPosAux opts 0 p none

/-- The `formatArgError` helper (lines 119-123): append `msg ++ ": " ++ arg`
to the accumulated error text. -/
def fmtArgErr (err msg arg : Str) : Str := err ++ msg ++ (": ".toList) ++ arg

/-- `parseOption` (lines 189-194): run the binder; on failure append the
`invalid option value` message.  The storage keeps whatever the binder wrote. -/
def parseOpt1 (o : Opt) (value err : Str) : Opt × Str × Bool :=
  let r := o.store.applyParse value
  if r.2 then ({o with store := r.1}, err, true)
  else ({o with store := r.1}, fmtArgErr err ("invalid option value".toList) value, false)

/-- Apply a flag option: `option->parsed = true; option->parse(option->value, {})`. -/
def flagApply (o : Opt) : Opt :=
  {o with parsed := true, store := (o.store.applyParse []).1}

/-- Loop-local state of `CommandLineParser::parse` (lines 208-211) together
with the mutable fields it reaches through pointers (`options_`, `error_`). -/
structure PState where
  opts : List Opt
  err : Str
  position : Int
  lastOption : Option Nat
  lastOptionUnknown : Bool
deriving DecidableEq

/-- Outcome of processing one token: continue the loop, or return `false`
from `parse` with the registry and error text at that point. -/
inductive StepRes
  | ok (s : PState)
  | fail (opts : List Opt) (err : Str)
deriving DecidableEq

/-- Registry carried by a step outcome. -/
def StepRes.optsOf : StepRes → List Opt
  | .ok s => s.opts
  | .fail opts _ => opts

/-- Processing of a token that does not start with `-` (lines 217-240):
a pending skipped-unknown value is discarded; otherwise the token feeds a
pending option, or is routed as a positional argument. -/
def bareStep (hasPosArg : Bool) (s : PState) (arg : Str) : StepRes :=
  if s.lastOptionUnknown then .ok {s with lastOptionUnknown := false}
  else
    match s.lastOption with
    | some i =>
      let opts1 := updateAt s.opts i (fun o => {o with parsed := true})
      let pr := parseOpt1 (getAt opts1 i) arg s.err
      let opts2 := updateAt opts1 i (fun _ => pr.1)
      if pr.2.2 then
        .ok {s with
              opts := opts2, err := pr.2.1,
              lastOption :=
                if pr.1.type = OptionType.list ∧ hasPosArg = false then some i else none}
      else .fail opts2 pr.2.1
    | none =>
      let pos := s.position + 1
      match findOptionPos s.opts pos with
      | none => .fail s.opts (fmtArgErr s.err ("positional arg not allowed".toList) arg)
      | some j =>
        let opts1 := updateAt s.opts j (fun o => {o with parsed := true})
        let pr := parseOpt1 (getAt opts1 j) arg s.err
        let opts2 := updateAt opts1 j (fun _ => pr.1)
        if pr.2.2 then .ok {s with opts := opts2, err := pr.2.1, position := pos}
        else .fail opts2 pr.2.1

/-- The short-flag bundle loop of lines 272-286: resolve each character;
unknown characters abort (or are skipped), a character resolving to a
non-flag option aborts with `option requires value: <char>`. -/
def bundleLoop (skip : Bool) (opts : List Opt) (err : Str) : Str → List Opt × Str × Bool
  | [] => (opts, err, true)
  | c :: cs =>
    match findOptionChar opts c with
    | none =>
      if skip then bundleLoop skip opts err cs
      else (opts, ("unknown option: -".toList) ++ [c], false)
    | some i =>
      if (getAt opts i).type = OptionType.flag then
        bundleLoop skip (updateAt opts i flagApply) err cs
      else (opts, ("option requires value: ".toList) ++ [c], false)

/-- Common handling of a resolved named/short option (lines 296-313): flags
reject inline values and are applied immediately; value options without an
inline value become the pending option; inline values are applied at once,
with a successfully fed list option staying pending when the registry has no
positional slots. -/
def applyFound (hasPosArg : Bool) (s : PState) (argValue : Str)
    (hasValue : Bool) (value : Str) (i : Nat) : StepRes :=
  if (getAt s.opts i).type = OptionType.flag then
    if hasValue then
      .fail s.opts (fmtArgErr s.err ("option value unexpected".toList) argValue)
    else .ok {s with opts := updateAt s.opts i flagApply}
  else if hasValue = false then .ok {s with lastOption := some i}
  else
    let opts1 := updateAt s.opts i (fun o => {o with parsed := true})
    let pr := parseOpt1 (getAt opts1 i) value s.err
    let opts2 := updateAt opts1 i (fun _ => pr.1)
    if pr.2.2 then
      .ok {s with
            opts := opts2, err := pr.2.1,
            lastOption :=
              if pr.1.type = OptionType.list ∧ hasPosArg = false then some i else none}
    else .fail opts2 pr.2.1

/-- Classification of a dash token after stripping its dashes
(lines 250-294): split on the first `=`, reject a leading `=`, then resolve
as long name, single short character, or bundle. -/
def dashCore (skip hasPosArg : Bool) (s : PState) (argValue : Str)
    (isName : Bool) (arg : Str) : StepRes :=
  let sp := splitFirst '=' arg
  let hasValue := sp.isSome
  let nm := match sp with | some (n, _) => n | none => arg
  let value := match sp with | some (_, v) => v | none => []
  if hasValue ∧ nm = [] then
    .fail s.opts (fmtArgErr s.err ("missing option name".toList) argValue)
  else if isName then
    match findOptionName s.opts nm with
    | none =>
      if skip then .ok {s with lastOptionUnknown := true}
      else .fail s.opts (("unknown option: --".toList) ++ nm)
    | some i => applyFound hasPosArg s argValue hasValue value i
  else if nm.length = 1 then
    match findOptionChar s.opts (nm.headD '-') with
    | none =>
      if skip then .ok {s with lastOptionUnknown := true}
      else .fail s.opts (("unknown option: -".toList) ++ nm)
    | some i => applyFound hasPosArg s argValue hasValue value i
  else if hasValue then
    .fail s.opts (fmtArgErr s.err ("flag/argument mix disallowed".toList) argValue)
  else
    let r := bundleLoop skip s.opts s.err nm
    if r.2.2 then .ok {s with opts := r.1, err := r.2.1}
    else .fail r.1 r.2.1

/-- One iteration of the token loop of `parse` (lines 212-314). -/
def step (skip hasPosArg : Bool) (s : PState) (argValue : Str) : StepRes :=
  match argValue with
  | [] => .ok s
  | c :: rest =>
    if c = '-' then
      let s1 : PState := {s with lastOption := none, lastOptionUnknown := false}
      let isName := rest.headD 'a' == '-'
      let arg := if isName then rest.tail else rest
      if arg = [] then .ok s1
      else dashCore skip hasPosArg s1 (c :: rest) isName arg
    else bareStep hasPosArg s (c :: rest)

/-- State reached after the token loop: final registry, error text, pending
option, and whether the loop ran to completion. -/
structure RunRes where
  opts : List Opt
  err : Str
  lastOption : Option Nat
  ok : Bool
deriving DecidableEq

/-- The token loop of `parse`, stopping at the first failing token. -/
def runTokens (skip hasPosArg : Bool) (s : PState) : List Str → RunRes
  | [] => ⟨s.opts, s.err, s.lastOption, true⟩
  | t :: ts =>
    match step skip hasPosArg s t with
    | .ok s1 => runTokens skip hasPosArg s1 ts
    | .fail opts err => ⟨opts, err, none, false⟩

/-- The parser object: `program_`, `skipUnknown_`, `options_`, `error_`. -/
structure Parser where
  program : Str
  skipUnknown : Bool
  opts : List Opt
  err : Str
deriving DecidableEq

/-- The `setProgram` mutator (lines 93-96). -/
def Parser.setProgram (p : Parser) (nm : Str) : Parser := {p with program := nm}

/-- The `hasPosArg` scan of lines 201-207: some option has a nonzero
`position`. -/
def hasPosArgOf (opts : List Opt) : Bool := opts.any (fun o => o.position != 0)

/-- Index of the last character of `s` belonging to `set`
(`find_last_of`), tracked left to right. -/
def findLastOfAux (set : Str) : Str → Nat → Option Nat → Option Nat
  | [], _, acc => acc
  | c :: cs, i, acc => findLastOfAux set cs (i + 1) (if set.contains c then some i else acc)

/-- Lines 197-200: strip everything up to the last `/` or `\` from the
program path. -/
def basename (s : Str) : Str :=
  match findLastOfAux ['/', '\\'] s 0 none with
  | none => s
  | some i => s.drop (i + 1)

/-- Loop state at entry of the token loop. -/
def initState (p : Parser) : PState := ⟨p.opts, p.err, 0, none, false⟩

/-- Body of `CommandLineParser::parse` once `argv[0]` has been read: derive
the program name, scan for positional registrations, run the token loop, and
apply the trailing `option requires value` check of lines 315-318 (which
cites `argv[argc - 1]`). -/
def parseArgs (p : Parser) (a0 : Str) (rest : List Str) : Parser × Bool :=
  let program := basename a0
  let r := runTokens p.skipUnknown (hasPosArgOf p.opts) (initState p) rest
  if r.ok then
    match r.lastOption with
    | none => (⟨program, p.skipUnknown, r.opts, r.err⟩, true)
    | some i =>
      if (getAt r.opts i).parsed then (⟨program, p.skipUnknown, r.opts, r.err⟩, true)
      else
        (⟨program, p.skipUnknown, r.opts,
          fmtArgErr r.err ("option requires value".toList) (rest.getLastD a0)⟩, false)
  else (⟨program, p.skipUnknown, r.opts, r.err⟩, false)

/-- `parse(argc, argv)`: the source dereferences `argv[0]` on line 197 before
ever comparing `argNum < argc`, so the empty argument vector is undefined
behaviour, modelled as `none`; with at least one element every access is in
bounds and the run is total. -/
def Parser.parse (p : Parser) : List Str → Option (Parser × Bool)
  | [] => none
  | a0 :: rest => some (parseArgs p a0 rest)

/-- Rendered display name of an option (`formatOptName`, lines 332-364). -/
def formatOptName (o : Opt) : Str :=
  if o.name = [] ∧ o.flags = [] then
    if o.hint = [] then ("arg".toList) ++ (toString o.position).toList
    else o.hint
  else
    (if o.flags = [] then [] else '-' :: o.flags)
      ++ (if o.name = [] then []
          else (if o.flags = [] then [] else (" [ ".toList))
            ++ ("--".toList) ++ o.name
            ++ (if o.flags = [] then [] else (" ]".toList)))
      ++ (if o.type = OptionType.flag then []
          else ' ' :: (if o.hint = [] then "arg".toList else o.hint))

/-- `checkRequired` (lines 321-330): fail on the first required option never
marked `parsed`, naming it. -/
def checkRequired (opts : List Opt) (err : Str) : Str × Bool :=
  match opts.find? (fun o => o.required && !o.parsed) with
  | none => (err, true)
  | some o => (("required option missing: ".toList) ++ formatOptName o, false)

/-- `getHelp` (lines 366-436): usage line with positionals, then the padded
`allowed options` and `positional arguments` blocks. -/
def getHelp (program : Str) (opts : List Opt) : Str :=
  let init : Str × Nat × Nat :=
    (("usage: ".toList) ++ program ++ (" [options]".toList), 0, 0)
  let fst := opts.foldl (fun acc o =>
      let nb := formatOptName o
      if o.name = [] ∧ o.flags = [] then
        (acc.1 ++ [' ']
          ++ (if o.required then [] else ['['])
          ++ nb
          ++ (if o.type = OptionType.list then "...".toList else [])
          ++ (if o.required then [] else [']']),
         acc.2.1, max acc.2.2 nb.length)
      else (acc.1, max acc.2.1 nb.length, acc.2.2)) init
  let hasOptions := opts.any (fun o => !(o.name.isEmpty && o.flags.isEmpty))
  let hasPosArgs := opts.any (fun o => o.name.isEmpty && o.flags.isEmpty)
  let maxName := min fst.2.1 30
  let maxArg := min fst.2.2 30
  let res1 := fst.1 ++ ['\n']
  let res2 :=
    if hasOptions then
      opts.foldl (fun r o =>
        if o.name = [] ∧ o.flags = [] then r
        else
          let nb := formatOptName o
          r ++ ("  ".toList) ++ nb
            ++ (if nb.length < maxName then List.replicate (maxName - nb.length) ' ' else [])
            ++ (if o.help = [] then [] else (" : ".toList) ++ o.help)
            ++ ['\n'])
        (res1 ++ ("allowed options:\n".toList))
    else res1
  if hasPosArgs then
    opts.foldl (fun r o =>
      if o.name = [] ∧ o.flags = [] then
        let nb := formatOptName o
        r ++ ("  ".toList) ++ nb
          ++ (if nb.length < maxArg then List.replicate (maxArg - nb.length) ' ' else [])
          ++ (if o.help = [] then [] else (" : ".toList) ++ o.help)
          ++ ['\n']
      else r)
      (res2 ++ ("positional arguments:\n".toList))
  else res2

/-- Substring test used to state help-text claims: does `pat` occur
contiguously inside `s`? -/
def leadsWith : Str → Str → Bool
  | [], _ => true
  | _ :: _, [] => false
  | a :: as, b :: bs => a == b && leadsWith as bs

/-- Substring occurrence test. -/
def containsSub (pat : Str) : Str → Bool
  | [] => leadsWith pat []
  | c :: rest => leadsWith pat (c :: rest) || containsSub pat rest

end CLP

namespace CLP

/-! ### Concrete registrations used by example-level claims -/

/-- Scalar int option `--level` / `-l`. -/
def levelOpt : Opt := mkOption .param (.intStore 0) ("level,l".toList) [] 0

/-- Parser holding only `levelOpt`. -/
def intOptParser : Parser := ⟨[], false, [levelOpt], []⟩

/-- The demo registration `addFlag(printHelp, "help,h", "print help")`. -/
def helpFlagOpt : Opt := mkOption .flag (.flagStore false) ("help,h".toList) ("print help".toList) 0

/-- The demo registration `add(compression, "+compression,c,level", ...)`. -/
def compOpt : Opt :=
  mkOption .param (.optIntStore none) ("+compression,c,level".toList) ("compression level".toList) 0

/-- The demo registration `add(files, "+,,path", ..., -1)`. -/
def filesOpt : Opt := mkOption .list (.strListStore []) ("+,,path".toList) ("file path(s)".toList) (-1)

/-- Demo registry with unknown-option skipping enabled. -/
def demoSkipParser : Parser := ⟨[], true, [helpFlagOpt, compOpt, filesOpt], []⟩

/-- Registration with spec `"+name,x,HINT"` bound to an int. -/
def c8Opt : Opt := mkOption .param (.intStore 0) ("+name,x,HINT".toList) [] 0

/-- Parser holding only `c8Opt`. -/
def c8Parser : Parser := ⟨[], false, [c8Opt], []⟩

/-- Catch-all positional list named `a`. -/
def catchAllA : Opt := mkOption .list (.strListStore []) ("a".toList) [] (-1)

/-- Catch-all positional list named `b`. -/
def catchAllB : Opt := mkOption .list (.strListStore []) ("b".toList) [] (-1)

/-- Flag option on character `f`. -/
def fFlagOpt : Opt := mkOption .flag (.flagStore false) ("flagf,f".toList) [] 0

/-- Int value option on character `v`. -/
def vParamOpt : Opt := mkOption .param (.intStore 0) ("val,v".toList) [] 0

/-- Parser holding `fFlagOpt` and `vParamOpt`. -/
def c5Parser : Parser := ⟨[], false, [fFlagOpt, vParamOpt], []⟩

/-! ### C9 and C10 -/

/-- Auxiliary: whatever branch the end-of-loop check takes, the parser
returned by `parseArgs` carries the basename of `argv[0]` as program name. -/
theorem parseArgs_program (p : Parser) (a0 : Str) (rest : List Str) :
    (parseArgs p a0 rest).1.program = basename a0 := by
  unfold parseArgs
  dsimp only
  split
  · split
    · rfl
    · split
      · rfl
      · rfl
  · rfl

/-- Auxiliary: `parseArgs` never reads the stored program name, so a prior
`setProgram` does not change its result. -/
theorem parseArgs_setProgram (p : Parser) (nm a0 : Str) (rest : List Str) :
    parseArgs (p.setProgram nm) a0 rest = parseArgs p a0 rest := rfl

/-- C9: `parse(argc, argv)` dereferences `argv[0]` before examining `argc`,
so the empty argument vector is out of bounds (modelled `none`); with
`argc >= 1` every branch of `parse` stays in bounds and the run is total
(modelled: the result is always `some`). -/
theorem c9_argv0_precondition :
    (∀ p : Parser, Parser.parse p [] = none) ∧
    (∀ (p : Parser) (a0 : Str) (rest : List Str),
      (Parser.parse p (a0 :: rest)).isSome = true) :=
  ⟨fun _ => rfl, fun _ _ _ => rfl⟩

/-- C10: with `argc >= 1`, `parse` overwrites the stored program name with
the basename of `argv[0]`: the result of `parse` is independent of any prior
`setProgram`, the resulting program name is `basename argv[0]`, and the help
text rendered after `parse` is likewise independent of `setProgram`. -/
theorem c10_program_overwritten :
    ∀ (p : Parser) (n1 n2 a0 : Str) (rest : List Str),
      Parser.parse (p.setProgram n1) (a0 :: rest) = Parser.parse (p.setProgram n2) (a0 :: rest) ∧
      (Parser.parse (p.setProgram n1) (a0 :: rest)).map (fun x => x.1.program)
        = some (basename a0) ∧
      (Parser.parse (p.setProgram n1) (a0 :: rest)).map (fun x => getHelp x.1.program x.1.opts)
        = (Parser.parse (p.setProgram n2) (a0 :: rest)).map (fun x => getHelp x.1.program x.1.opts) := by
  intro p n1 n2 a0 rest
  refine ⟨?_, ?_, ?_⟩
  · show some (parseArgs (p.setProgram n1) a0 rest) = some (parseArgs (p.setProgram n2) a0 rest)
    rw [parseArgs_setProgram, parseArgs_setProgram]
  · show some ((parseArgs (p.setProgram n1) a0 rest).1.program) = some (basename a0)
    rw [parseArgs_program]
  · show some (getHelp (parseArgs (p.setProgram n1) a0 rest).1.program
        (parseArgs (p.setProgram n1) a0 rest).1.opts)
      = some (getHelp (parseArgs (p.setProgram n2) a0 rest).1.program
        (parseArgs (p.setProgram n2) a0 rest).1.opts)
    rw [parseArgs_setProgram, parseArgs_setProgram]

end CLP

namespace CLP

/-! ### C1 -/

/-- C1 counterexample: for the list binding `vector<int>` and token `"x"`,
parse-and-apply returns failure, yet the bound vector has been mutated: the
`emplace_back`-ed element stays appended, so the claim that failure leaves
the target unmutated is false. -/
theorem c1_cex :
    Store.applyParse (Store.intListStore []) ("x".toList) = (Store.intListStore [0], false) ∧
    Store.intListStore [0] ≠ Store.intListStore [] := ⟨rfl, by decide⟩

/-- C1 amended: parse-and-apply does return failure when the token cannot be
fully consumed by the numeric conversion or the scalar parse of a list
element fails, but mutation on failure depends on how the conversion failed:
the scalar target is left unmodified when the conversion matches no prefix
(`invalid_argument`) or the matched value does not fit the destination
(`result_out_of_range`), while a partially-consumed in-range prefix
overwrites it with the prefix value; a failed list element remains appended
— holding the prefix value when one was stored, the value-initialized 0
otherwise. -/
theorem c1_amended :
    (∀ (v : Int) (s : Str), fromCharsInt s = none →
      Store.applyParse (Store.intStore v) s = (Store.intStore v, false)) ∧
    (∀ (v n : Int) (k : Nat) (s : Str), fromCharsInt s = some (n, k) →
      intMin ≤ n → n ≤ intMax → k ≠ s.length →
      Store.applyParse (Store.intStore v) s = (Store.intStore n, false)) ∧
    (∀ (v n : Int) (k : Nat) (s : Str), fromCharsInt s = some (n, k) →
      (n < intMin ∨ intMax < n) →
      Store.applyParse (Store.intStore v) s = (Store.intStore v, false)) ∧
    (∀ (l : List Int) (s : Str), fromCharsInt s = none →
      Store.applyParse (Store.intListStore l) s = (Store.intListStore (l ++ [0]), false)) ∧
    (∀ (l : List Int) (n : Int) (k : Nat) (s : Str), fromCharsInt s = some (n, k) →
      (n < intMin ∨ intMax < n) →
      Store.applyParse (Store.intListStore l) s = (Store.intListStore (l ++ [0]), false)) ∧
    (∀ (l : List Int) (n : Int) (k : Nat) (s : Str), fromCharsInt s = some (n, k) →
      intMin ≤ n → n ≤ intMax → k ≠ s.length →
      Store.applyParse (Store.intListStore l) s = (Store.intListStore (l ++ [n]), false)) := by
  refine ⟨?_, ?_, ?_, ?_, ?_, ?_⟩
  · intro v s h
    simp [Store.applyParse, parseArith, h]
  · intro v n k s h h1 h2 hk
    have hno : ¬(n < intMin ∨ intMax < n) := by
      simp only [intMin, intMax] at h1 h2 ⊢
      omega
    simp [Store.applyParse, parseArith, h, hno, hk]
  · intro v n k s h hov
    simp [Store.applyParse, parseArith, h, hov]
  · intro l s h
    simp [Store.applyParse, parseArith, h]
  · intro l n k s h hov
    simp [Store.applyParse, parseArith, h, hov]
  · intro l n k s h h1 h2 hk
    have hno : ¬(n < intMin ∨ intMax < n) := by
      simp only [intMin, intMax] at h1 h2 ⊢
      omega
    simp [Store.applyParse, parseArith, h, hno, hk]

/-- C1 witness: the amended theorem applied to `"12x"` (in-range prefix 12
overwrites the scalar), `"9999999999"` (overflows the 32-bit destination:
failure with the scalar and the appended list element left untouched), and
`"y"` (no prefix matches: value-initialized element stays appended). -/
theorem c1_witness :
    Store.applyParse (Store.intStore 7) ("12x".toList) = (Store.intStore 12, false) ∧
    Store.applyParse (Store.intStore 5) ("9999999999".toList) = (Store.intStore 5, false) ∧
    Store.applyParse (Store.intListStore [3]) ("9999999999".toList)
      = (Store.intListStore [3, 0], false) ∧
    Store.applyParse (Store.intListStore [3]) ("y".toList)
      = (Store.intListStore [3, 0], false) :=
  ⟨c1_amended.2.1 7 12 2 ("12x".toList) (by decide) (by decide) (by decide) (by decide),
   c1_amended.2.2.1 5 9999999999 10 ("9999999999".toList) (by decide) (by decide),
   c1_amended.2.2.2.2.1 [3] 9999999999 10 ("9999999999".toList) (by decide) (by decide),
   c1_amended.2.2.2.1 [3] ("y".toList) (by decide)⟩

/-! ### C2 -/

/-- C2 counterexample: parsing `["prog", "--level", "x"]` with an int-bound
`--level` fails on the conversion of `"x"`, yet the option has `parsed = true`
because `parse` sets `parsed` before invoking the conversion; the claim that
the failed option does not have `parsed` set is false. -/
theorem c2_cex :
    (Parser.parse intOptParser ["prog".toList, "--level".toList, "x".toList]).map
      (fun x => (x.2, (getAt x.1.opts 0).parsed))
    = some (false, true) := by rfl

/-! ### C3 -/

/-- C3 counterexample: with two catch-all positional options registered, the
positional lookup for slot 1 resolves to the second-registered one (index 1),
not the first, so the first-registered-wins tie-break claimed for every
multi-match situation is false. -/
theorem c3_cex :
    findOptionPos [catchAllA, catchAllB] 1 = some 1 ∧
    findOptionPos [catchAllA, catchAllB] 1 ≠ some 0 ∧
    catchAllA.position = -1 ∧ catchAllB.position = -1 := by
  refine ⟨rfl, by decide, rfl, rfl⟩

/-! ### C6 -/

/-- C6 counterexample: in `["prog", "--level=5", "--level"]` the last token
names a value-expecting option, no inline value and no following token
supplies a value for it, yet `parse` succeeds with an empty error because the
option was already marked `parsed` by the earlier token; the unconditional
failure claimed is false. -/
theorem c6_cex :
    (Parser.parse intOptParser ["prog".toList, "--level=5".toList, "--level".toList]).map
      (fun x => (x.2, x.1.err))
    = some (true, ([] : Str)) := by rfl

/-! ### C7 -/

/-- C7: with `skipUnknown(true)`, parsing `["prog", "--bogus", "val",
"a.txt"]` against the demo registry (help flag, compression option, catch-all
positional file list) succeeds with no error, and both `--bogus` and the
following bare token `val` are discarded: only `a.txt` reaches the positional
list. -/
theorem c7_skip_unknown_value :
    (Parser.parse demoSkipParser
        ["prog".toList, "--bogus".toList, "val".toList, "a.txt".toList]).map
      (fun x => (x.2, x.1.err, (getAt x.1.opts 2).store))
    = some (true, ([] : Str), Store.strListStore ["a.txt".toList]) := by rfl

/-! ### C8 -/

/-- C8: registering spec `"+name,x,HINT"` and parsing `--name=1` yields a
required option that is satisfied (`parsed = true`, `checkRequired`
succeeds), and the help text contains `-x [ --name ] HINT`. -/
theorem c8_round_trip :
    (Parser.parse c8Parser ["prog".toList, "--name=1".toList]).map
      (fun x => (x.2, (getAt x.1.opts 0).required, (getAt x.1.opts 0).parsed,
        (checkRequired x.1.opts []).2,
        containsSub ("-x [ --name ] HINT".toList) (getHelp x.1.program x.1.opts)))
    = some (true, true, true, true, true) := by rfl

end CLP

namespace CLP

/-! ### Registry index lemmas -/

theorem length_updateAt (l : List Opt) (i : Nat) (f : Opt → Opt) :
    (updateAt l i f).length = l.length := by
  induction l generalizing i with
  | nil => rfl
  | cons o os ih =>
    cases i with
    | zero => rfl
    | succ i => simp [updateAt, ih]

theorem getAt_updateAt (l : List Opt) (i k : Nat) (f : Opt → Opt) :
    getAt (updateAt l i f) k
      = if i = k ∧ k < l.length then f (getAt l k) else getAt l k := by
  induction l generalizing i k with
  | nil => simp [updateAt, getAt]
  | cons o os ih =>
    cases i with
    | zero =>
      cases k with
      | zero => simp [updateAt, getAt]
      | succ k => simp [updateAt, getAt]
    | succ i =>
      cases k with
      | zero => simp [updateAt, getAt]
      | succ k =>
        simp only [updateAt, getAt, List.length_cons]
        rw [ih]
        exact if_congr (by omega) rfl rfl

theorem updateAt_updateAt (l : List Opt) (i : Nat) (f g : Opt → Opt) :
    updateAt (updateAt l i f) i g = updateAt l i (fun o => g (f o)) := by
  induction l generalizing i with
  | nil => rfl
  | cons o os ih =>
    cases i with
    | zero => rfl
    | succ i => simp [updateAt, ih]

theorem parseOpt1_parsed (o : Opt) (v e : Str) : (parseOpt1 o v e).1.parsed = o.parsed := by
  simp only [parseOpt1]
  split <;> rfl

theorem parseOpt1_type (o : Opt) (v e : Str) : (parseOpt1 o v e).1.type = o.type := by
  simp only [parseOpt1]
  split <;> rfl

/-! ### C2 amended -/

/-- C2 amended: whenever a value token is routed to an option — as the value
of the pending option, as a positional argument, or as an inline `=value` —
the engine sets `parsed` before running the conversion, so the routed option
has `parsed = true` in the resulting registry whether the conversion
succeeded or failed. -/
theorem c2_amended :
    (∀ (hasPosArg : Bool) (s : PState) (i : Nat) (t : Str),
      s.lastOptionUnknown = false → s.lastOption = some i → i < s.opts.length →
      (getAt (bareStep hasPosArg s t).optsOf i).parsed = true) ∧
    (∀ (hasPosArg : Bool) (s : PState) (j : Nat) (t : Str),
      s.lastOptionUnknown = false → s.lastOption = none →
      findOptionPos s.opts (s.position + 1) = some j → j < s.opts.length →
      (getAt (bareStep hasPosArg s t).optsOf j).parsed = true) ∧
    (∀ (hasPosArg : Bool) (s : PState) (argValue value : Str) (i : Nat),
      (getAt s.opts i).type ≠ OptionType.flag → i < s.opts.length →
      (getAt (applyFound hasPosArg s argValue true value i).optsOf i).parsed = true) := by
  refine ⟨?_, ?_, ?_⟩
  · intro hasPosArg s i t hu hl hi
    simp only [bareStep, hu, hl]
    simp only [Bool.false_eq_true, if_false]
    split <;>
      simp [StepRes.optsOf, updateAt_updateAt, getAt_updateAt, hi, parseOpt1_parsed]
  · intro hasPosArg s j t hu hl hf hj
    simp only [bareStep, hu, hl, hf]
    simp only [Bool.false_eq_true, if_false]
    split <;>
      simp [StepRes.optsOf, updateAt_updateAt, getAt_updateAt, hj, parseOpt1_parsed]
  · intro hasPosArg s argValue value i ht hi
    simp only [applyFound, ht, if_neg, if_false]
    rw [if_neg (by decide : ¬(true = false))]
    split <;>
      simp [StepRes.optsOf, updateAt_updateAt, getAt_updateAt, hi, parseOpt1_parsed]

end CLP

namespace CLP

/-- C2 witness: the amended theorem at concrete inputs — a pending int
option fed `"x"`, a positional routed to a catch-all, and an inline value:
in each case the routed option ends up `parsed`. -/
theorem c2_witness :
    (getAt (bareStep false ⟨[levelOpt], [], 0, some 0, false⟩ ("x".toList)).optsOf 0).parsed
        = true ∧
    (getAt (bareStep false ⟨[catchAllA], [], 0, none, false⟩ ("f1".toList)).optsOf 0).parsed
        = true ∧
    (getAt (applyFound false ⟨[levelOpt], [], 0, none, false⟩ ("--level=x".toList) true
        ("x".toList) 0).optsOf 0).parsed = true :=
  ⟨c2_amended.1 false ⟨[levelOpt], [], 0, some 0, false⟩ 0 ("x".toList) rfl rfl (by decide),
   c2_amended.2.1 false ⟨[catchAllA], [], 0, none, false⟩ 0 ("f1".toList) rfl rfl
     (by decide) (by decide),
   c2_amended.2.2 false ⟨[levelOpt], [], 0, none, false⟩ ("--level=x".toList) ("x".toList) 0
     (by decide) (by decide)⟩

/-! ### C3 amended -/

/-- Index of the last option satisfying `p`, tracked left to right exactly
like the `positionalOpt` pointer of the source's loop. -/
def lastIdxAux (p : Opt → Bool) : List Opt → Nat → Option Nat → Option Nat
  | [], _, acc => acc
  | o :: os, i, acc => lastIdxAux p os (i + 1) (if p o then some i else acc)

/-- Specification-level description of positional lookup as amended: the
first-registered exact position match if any, otherwise the last-registered
catch-all (`position = -1`) option, otherwise none. -/
def specPosLookup (opts : List Opt) (p : Int) : Option Nat :=
  match findIdxFrom (fun o => o.position == p) opts 0 with
  | some i => some i
  | none => lastIdxAux (fun o => o.position == -1) opts 0 none

theorem findOptionPosAux_spec (p : Int) :
    ∀ (l : List Opt) (n : Nat) (acc : Option Nat),
      findOptionPosAux l n p acc
        = match findIdxFrom (fun o => o.position == p) l n with
          | some i => some i
          | none => lastIdxAux (fun o => o.position == -1) l n acc := by
  intro l
  induction l with
  | nil => intro n acc; rfl
  | cons o os ih =>
    intro n acc
    by_cases h : o.position = p
    · simp [findOptionPosAux, findIdxFrom, beq_iff_eq, h]
    · simp [findOptionPosAux, findIdxFrom, lastIdxAux, beq_iff_eq, h, ih]

/-- C3 amended: positional lookup returns the first-registered option whose
`position` equals the requested slot when one exists; otherwise the
last-registered catch-all option (`position = -1`) when one exists;
otherwise none.  First-registered-wins holds only for exact matches — among
several catch-alls the last registered wins. -/
theorem c3_amended (opts : List Opt) (p : Int) :
    findOptionPos opts p = specPosLookup opts p := by
  unfold findOptionPos specPosLookup
  exact findOptionPosAux_spec p opts 0 none

end CLP

namespace CLP

/-! ### C4: list value consumption -/

theorem step_bare (skip hasPosArg : Bool) (s : PState) (c : Char) (cs : Str)
    (hc : c ≠ '-') : step skip hasPosArg s (c :: cs) = bareStep hasPosArg s (c :: cs) := by
  simp [step, hc]

theorem bareStep_pending_ok (hasPosArg : Bool) (s : PState) (i : Nat)
    (b : Str) (st' : Store)
    (hu : s.lastOptionUnknown = false) (hl : s.lastOption = some i)
    (hi : i < s.opts.length)
    (ht : (getAt s.opts i).type = OptionType.list)
    (hap : (getAt s.opts i).store.applyParse b = (st', true)) :
    bareStep hasPosArg s b = .ok {s with
      opts := updateAt s.opts i
        (fun _ => {getAt s.opts i with parsed := true, store := st'}),
      lastOption := if hasPosArg = false then some i else none} := by
  have h1 : getAt (updateAt s.opts i (fun o => {o with parsed := true})) i
      = {getAt s.opts i with parsed := true} := by
    rw [getAt_updateAt]; simp [hi]
  have h2 : parseOpt1 {getAt s.opts i with parsed := true} b s.err
      = ({getAt s.opts i with parsed := true, store := st'}, s.err, true) := by
    simp [parseOpt1, hap]
  simp only [bareStep, hu, hl, Bool.false_eq_true, if_false]
  rw [h1, h2]
  simp only [updateAt_updateAt]
  simp [ht]

theorem bareStep_pending_fail (hasPosArg : Bool) (s : PState) (i : Nat)
    (b : Str) (st' : Store)
    (hu : s.lastOptionUnknown = false) (hl : s.lastOption = some i)
    (hi : i < s.opts.length)
    (hap : (getAt s.opts i).store.applyParse b = (st', false)) :
    bareStep hasPosArg s b = .fail
      (updateAt s.opts i
        (fun _ => {getAt s.opts i with parsed := true, store := st'}))
      (fmtArgErr s.err ("invalid option value".toList) b) := by
  have h1 : getAt (updateAt s.opts i (fun o => {o with parsed := true})) i
      = {getAt s.opts i with parsed := true} := by
    rw [getAt_updateAt]; simp [hi]
  have h2 : parseOpt1 {getAt s.opts i with parsed := true} b s.err
      = ({getAt s.opts i with parsed := true, store := st'},
         fmtArgErr s.err ("invalid option value".toList) b, false) := by
    simp [parseOpt1, hap]
  simp only [bareStep, hu, hl, Bool.false_eq_true, if_false]
  rw [h1, h2]
  simp [updateAt_updateAt]

end CLP

namespace CLP

theorem runTokens_cons_ok (skip hasPosArg : Bool) (s s1 : PState) (t : Str)
    (ts : List Str) (hstep : step skip hasPosArg s t = .ok s1) :
    runTokens skip hasPosArg s (t :: ts) = runTokens skip hasPosArg s1 ts := by
  simp [runTokens, hstep]

/-- Repeated parse-and-apply of successive value tokens to one binding, in
the order the greedy list loop feeds them; the run succeeds when every
element conversion succeeds. -/
def applyAll : Store → List Str → Store × Bool
  | st, [] => (st, true)
  | st, t :: ts =>
    let r := st.applyParse t
    if r.2 then applyAll r.1 ts else (r.1, false)

theorem runTokens_greedy (skip : Bool) :
    ∀ (bs : List Str) (b : Str) (opts : List Opt) (err : Str) (pos : Int)
      (i : Nat) (ts : List Str),
      (∀ t ∈ b :: bs, t ≠ [] ∧ t.headD '-' ≠ '-') →
      i < opts.length →
      (getAt opts i).type = OptionType.list →
      (applyAll (getAt opts i).store (b :: bs)).2 = true →
      runTokens skip false ⟨opts, err, pos, some i, false⟩ ((b :: bs) ++ ts)
        = runTokens skip false
            ⟨updateAt opts i
              (fun _ => {getAt opts i with
                          parsed := true,
                          store := (applyAll (getAt opts i).store (b :: bs)).1}),
             err, pos, some i, false⟩ ts := by
  intro bs
  induction bs with
  | nil =>
    intro b opts err pos i ts hbare hi ht hap
    obtain ⟨hbne, hbhd⟩ := hbare b (by simp)
    obtain ⟨c, cs, rfl⟩ : ∃ c cs, b = c :: cs := by
      cases b with
      | nil => exact absurd rfl hbne
      | cons c cs => exact ⟨c, cs, rfl⟩
    have hc : c ≠ '-' := by simpa using hbhd
    rcases hr : (getAt opts i).store.applyParse (c :: cs) with ⟨st', ok⟩
    have hok : ok = true := by
      cases ok with
      | false => simp [applyAll, hr] at hap
      | true => rfl
    subst hok
    have happ1 : (applyAll (getAt opts i).store [c :: cs]).1 = st' := by
      simp [applyAll, hr]
    have hstep2 := (step_bare skip false ⟨opts, err, pos, some i, false⟩ c cs hc).trans
      (bareStep_pending_ok false ⟨opts, err, pos, some i, false⟩ i (c :: cs) st'
        rfl rfl hi ht hr)
    rw [happ1]
    exact runTokens_cons_ok skip false _ _ (c :: cs) ts hstep2
  | cons b2 bs ih =>
    intro b opts err pos i ts hbare hi ht hap
    obtain ⟨hbne, hbhd⟩ := hbare b (by simp)
    obtain ⟨c, cs, rfl⟩ : ∃ c cs, b = c :: cs := by
      cases b with
      | nil => exact absurd rfl hbne
      | cons c cs => exact ⟨c, cs, rfl⟩
    have hc : c ≠ '-' := by simpa using hbhd
    rcases hr : (getAt opts i).store.applyParse (c :: cs) with ⟨st', ok⟩
    have hok : ok = true := by
      cases ok with
      | false => simp [applyAll, hr] at hap
      | true => rfl
    subst hok
    have happ : applyAll (getAt opts i).store ((c :: cs) :: b2 :: bs)
        = applyAll st' (b2 :: bs) := by
      simp [applyAll, hr]
    have hap2 : (applyAll st' (b2 :: bs)).2 = true := by
      rw [← happ]; exact hap
    have hstep2 := (step_bare skip false ⟨opts, err, pos, some i, false⟩ c cs hc).trans
      (bareStep_pending_ok false ⟨opts, err, pos, some i, false⟩ i (c :: cs) st'
        rfl rfl hi ht hr)
    have hg1 : getAt (updateAt opts i
        (fun _ => {getAt opts i with parsed := true, store := st'})) i
        = {getAt opts i with parsed := true, store := st'} := by
      rw [getAt_updateAt]; simp [hi]
    have ih2 := ih b2 (updateAt opts i
        (fun _ => {getAt opts i with parsed := true, store := st'}))
      err pos i ts
      (fun t htm => hbare t (List.mem_cons_of_mem _ htm))
      (by rw [length_updateAt]; exact hi)
      (by rw [hg1]; exact ht)
      (by rw [hg1]; exact hap2)
    have e1 := runTokens_cons_ok skip false ⟨opts, err, pos, some i, false⟩ _
      (c :: cs) ((b2 :: bs) ++ ts) hstep2
    exact e1.trans (ih2.trans (by
      simp [updateAt_updateAt, hg1, happ]))

end CLP

namespace CLP

/-- Int-list option registered with no positional slot (`position = 0`). -/
def numsOpt0 : Opt := mkOption .list (.intListStore []) ("nums,n".toList) [] 0

/-- Int-list option registered on positional slot 1. -/
def numsPos1 : Opt := mkOption .list (.intListStore []) ("nums,n".toList) [] 1

/-- Parser holding only `numsOpt0`. -/
def numsParser : Parser := ⟨[], false, [numsOpt0], []⟩

/-- C4 counterexample: with a pending int-list option and the all-bare
tokens `1 x 2`, the engine does not greedily consume every immediately
following bare token up to the next dash: the element conversion of `x`
fails, parse aborts with `invalid option value: x`, the list holds `[1, 0]`
and `2` is never consumed — the unconditional greedy-consumption claim is
false for such binders. -/
theorem c4_cex :
    (Parser.parse numsParser
        ["prog".toList, "--nums".toList, "1".toList, "x".toList, "2".toList]).map
      (fun x => (x.2, (getAt x.1.opts 0).store, x.1.err))
    = some (false, Store.intListStore [1, 0], ("invalid option value: x".toList)) := by rfl

/-- C4 amended: when a List option (any binder) is pending its value: if no
registered option has a nonzero `position`, the engine greedily consumes
immediately following bare nonempty tokens, applying each in order to the
binding and staying pending, for as long as every element conversion
succeeds; if some option has a nonzero `position`, it consumes exactly one
successfully-converting value token and returns to scanning; a bare token
whose element conversion fails instead aborts the parse at once with the
`invalid option value` error (the binder keeping whatever the failed
conversion wrote). -/
theorem c4_amended :
    (∀ (skip : Bool) (s : PState) (i : Nat) (b : Str) (bs ts : List Str),
      hasPosArgOf s.opts = false →
      (∀ t ∈ b :: bs, t ≠ [] ∧ t.headD '-' ≠ '-') →
      s.lastOptionUnknown = false → s.lastOption = some i → i < s.opts.length →
      (getAt s.opts i).type = OptionType.list →
      (applyAll (getAt s.opts i).store (b :: bs)).2 = true →
      runTokens skip (hasPosArgOf s.opts) s ((b :: bs) ++ ts)
        = runTokens skip (hasPosArgOf s.opts)
            ⟨updateAt s.opts i
              (fun _ => {getAt s.opts i with
                          parsed := true,
                          store := (applyAll (getAt s.opts i).store (b :: bs)).1}),
             s.err, s.position, some i, false⟩ ts)
    ∧
    (∀ (skip : Bool) (s : PState) (i : Nat) (c : Char) (cs : Str) (st' : Store),
      hasPosArgOf s.opts = true → c ≠ '-' →
      s.lastOptionUnknown = false → s.lastOption = some i → i < s.opts.length →
      (getAt s.opts i).type = OptionType.list →
      (getAt s.opts i).store.applyParse (c :: cs) = (st', true) →
      step skip (hasPosArgOf s.opts) s (c :: cs)
        = .ok ⟨updateAt s.opts i
            (fun _ => {getAt s.opts i with parsed := true, store := st'}),
           s.err, s.position, none, false⟩)
    ∧
    (∀ (skip hasPosArg : Bool) (s : PState) (i : Nat) (c : Char) (cs : Str) (st' : Store),
      c ≠ '-' →
      s.lastOptionUnknown = false → s.lastOption = some i → i < s.opts.length →
      (getAt s.opts i).store.applyParse (c :: cs) = (st', false) →
      step skip hasPosArg s (c :: cs)
        = .fail (updateAt s.opts i
            (fun _ => {getAt s.opts i with parsed := true, store := st'}))
            (fmtArgErr s.err ("invalid option value".toList) (c :: cs))) := by
  refine ⟨?_, ?_, ?_⟩
  · intro skip s i b bs ts hp hbare hu hl hi ht hap
    have hseq : s = ⟨s.opts, s.err, s.position, some i, false⟩ := by rw [← hl, ← hu]
    rw [hp, hseq]
    exact runTokens_greedy skip bs b s.opts s.err s.position i ts hbare hi ht hap
  · intro skip s i c cs st' hp hc hu hl hi ht hap
    have hseq : s = ⟨s.opts, s.err, s.position, some i, false⟩ := by rw [← hl, ← hu]
    rw [hp, hseq]
    exact (step_bare skip true ⟨s.opts, s.err, s.position, some i, false⟩ c cs hc).trans
      (bareStep_pending_ok true ⟨s.opts, s.err, s.position, some i, false⟩ i (c :: cs) st'
        rfl rfl hi ht hap)
  · intro skip hasPosArg s i c cs st' hc hu hl hi hap
    have hseq : s = ⟨s.opts, s.err, s.position, some i, false⟩ := by rw [← hl, ← hu]
    rw [hseq]
    exact (step_bare skip hasPosArg ⟨s.opts, s.err, s.position, some i, false⟩ c cs hc).trans
      (bareStep_pending_fail hasPosArg ⟨s.opts, s.err, s.position, some i, false⟩ i (c :: cs)
        st' rfl rfl hi hap)

/-- C4 witness: the amended theorem applied to a pending int-list option —
with no positional registrations it swallows the converting tokens `1` and
`2` and stays pending; with a slot-1 registration present it takes exactly
the converting token `5` and clears the pending option; and the failing
token `x` aborts with `invalid option value`. -/
theorem c4_witness :
    runTokens false (hasPosArgOf [numsOpt0]) ⟨[numsOpt0], [], 0, some 0, false⟩
        (("1".toList :: ["2".toList]) ++ [])
      = runTokens false (hasPosArgOf [numsOpt0])
          ⟨updateAt [numsOpt0] 0
            (fun _ => {getAt [numsOpt0] 0 with
                        parsed := true,
                        store := (applyAll (getAt [numsOpt0] 0).store
                          ("1".toList :: ["2".toList])).1}),
           [], 0, some 0, false⟩ [] ∧
    step false (hasPosArgOf [numsPos1]) ⟨[numsPos1], [], 0, some 0, false⟩ ("5".toList)
      = .ok ⟨updateAt [numsPos1] 0
          (fun _ => {getAt [numsPos1] 0 with
                      parsed := true, store := Store.intListStore [5]}),
         [], 0, none, false⟩ ∧
    step false false ⟨[numsOpt0], [], 0, some 0, false⟩ ("x".toList)
      = .fail (updateAt [numsOpt0] 0
          (fun _ => {getAt [numsOpt0] 0 with
                      parsed := true, store := Store.intListStore [0]}))
          (fmtArgErr [] ("invalid option value".toList) ("x".toList)) :=
  ⟨c4_amended.1 false ⟨[numsOpt0], [], 0, some 0, false⟩ 0 ("1".toList) ["2".toList] []
      (by decide) (by decide) rfl rfl (by decide) (by decide) (by decide),
   c4_amended.2.1 false ⟨[numsPos1], [], 0, some 0, false⟩ 0 '5' [] (Store.intListStore [5])
      (by decide) (by decide) rfl rfl (by decide) (by decide) (by decide),
   c4_amended.2.2 false false ⟨[numsOpt0], [], 0, some 0, false⟩ 0 'x' []
      (Store.intListStore [0]) (by decide) rfl rfl (by decide) (by decide)⟩

end CLP

namespace CLP

/-! ### C5: short-option bundles -/

theorem splitFirst_of_not_mem (ch : Char) :
    ∀ (s : Str), ch ∉ s → splitFirst ch s = none := by
  intro s
  induction s with
  | nil => intro _; rfl
  | cons c cs ih =>
    intro h
    have hne : c ≠ ch := fun e => h (by subst e; exact List.mem_cons_self _ _)
    have hnm : ch ∉ cs := fun m => h (List.mem_cons_of_mem _ m)
    simp [splitFirst, hne, ih hnm]

theorem splitFirst_append (ch : Char) :
    ∀ (a b : Str), ch ∉ a → splitFirst ch (a ++ ch :: b) = some (a, b) := by
  intro a
  induction a with
  | nil => intro b _; simp [splitFirst]
  | cons c cs ih =>
    intro b h
    have hne : c ≠ ch := fun e => h (by subst e; exact List.mem_cons_self _ _)
    have hnm : ch ∉ cs := fun m => h (List.mem_cons_of_mem _ m)
    simp [splitFirst, hne, ih b hnm]

theorem findIdxFrom_updateAt_flags (p : Opt → Bool)
    (hp : ∀ o, p (flagApply o) = p o) :
    ∀ (l : List Opt) (j n : Nat),
      findIdxFrom p (updateAt l j flagApply) n = findIdxFrom p l n := by
  intro l
  induction l with
  | nil => intro j n; cases j <;> rfl
  | cons o os ih =>
    intro j n
    cases j with
    | zero => simp [updateAt, findIdxFrom, hp]
    | succ j => simp [updateAt, findIdxFrom, ih]

theorem findOptionChar_updateAt_flagApply (opts : List Opt) (j : Nat) (c : Char) :
    findOptionChar (updateAt opts j flagApply) c = findOptionChar opts c :=
  findIdxFrom_updateAt_flags (fun o => o.flags.contains c) (fun _ => rfl) opts j 0

theorem getAt_type_updateAt_flagApply (l : List Opt) (j k : Nat) :
    (getAt (updateAt l j flagApply) k).type = (getAt l k).type := by
  rw [getAt_updateAt]
  split
  · rfl
  · rfl

theorem bundleLoop_err (skip : Bool) :
    ∀ (pre : Str) (opts : List Opt) (err : Str) (c : Char) (cs : Str) (i : Nat),
      (∀ d ∈ pre,
        (∃ j, findOptionChar opts d = some j ∧ (getAt opts j).type = OptionType.flag)
          ∨ (skip = true ∧ findOptionChar opts d = none)) →
      findOptionChar opts c = some i →
      (getAt opts i).type ≠ OptionType.flag →
      (bundleLoop skip opts err (pre ++ c :: cs)).2
        = (("option requires value: ".toList) ++ [c], false) := by
  intro pre
  induction pre with
  | nil =>
    intro opts err c cs i hpre hc ht
    simp [bundleLoop, hc, ht]
  | cons d pre ih =>
    intro opts err c cs i hpre hc ht
    rcases hpre d (List.mem_cons_self _ _) with ⟨j, hj, hjt⟩ | ⟨hsk, hnone⟩
    · have hrec := ih (updateAt opts j flagApply) err c cs i
        (fun d2 hd2 => by
          rcases hpre d2 (List.mem_cons_of_mem _ hd2) with ⟨j2, hj2, hjt2⟩ | ⟨hsk2, hn2⟩
          · exact Or.inl ⟨j2, by rw [findOptionChar_updateAt_flagApply]; exact hj2,
              by rw [getAt_type_updateAt_flagApply]; exact hjt2⟩
          · exact Or.inr ⟨hsk2, by rw [findOptionChar_updateAt_flagApply]; exact hn2⟩)
        (by rw [findOptionChar_updateAt_flagApply]; exact hc)
        (by rw [getAt_type_updateAt_flagApply]; exact ht)
      simpa [bundleLoop, hj, hjt] using hrec
    · have hrec := ih opts err c cs i
        (fun d2 hd2 => hpre d2 (List.mem_cons_of_mem _ hd2)) hc ht
      simpa [bundleLoop, hnone, hsk] using hrec

end CLP

namespace CLP

/-- C5: a multi-character short token (one dash, more than one character in
the option part before any `=`): with an `=value` suffix the engine fails
with the `flag/argument mix disallowed` error; without one, the characters
are resolved as a bundle of short flags, and as soon as a character resolves
to a non-Flag option the engine fails with `option requires value: <char>`
naming that character (characters before it must have resolved to flags, or
been skipped as unknown under skipUnknown). -/
theorem c5_bundle :
    (∀ (skip hasPosArg : Bool) (s : PState) (c : Char) (cs value : Str),
      c ≠ '-' → cs ≠ [] → ('=' ∉ c :: cs) →
      step skip hasPosArg s ('-' :: c :: (cs ++ '=' :: value))
        = .fail s.opts (fmtArgErr s.err ("flag/argument mix disallowed".toList)
            ('-' :: c :: (cs ++ '=' :: value))))
    ∧
    (∀ (skip hasPosArg : Bool) (s : PState) (pre : Str) (c : Char) (cs : Str) (i : Nat),
      (pre ++ c :: cs).headD 'a' ≠ '-' → 2 ≤ (pre ++ c :: cs).length →
      ('=' ∉ pre ++ c :: cs) →
      (∀ d ∈ pre,
        (∃ j, findOptionChar s.opts d = some j ∧ (getAt s.opts j).type = OptionType.flag)
          ∨ (skip = true ∧ findOptionChar s.opts d = none)) →
      findOptionChar s.opts c = some i →
      (getAt s.opts i).type ≠ OptionType.flag →
      step skip hasPosArg s ('-' :: (pre ++ c :: cs))
        = .fail (bundleLoop skip s.opts s.err (pre ++ c :: cs)).1
            (("option requires value: ".toList) ++ [c])) := by
  constructor
  · intro skip hasPosArg s c cs value hc hcs hmem
    have hceq : c ≠ '=' := fun e => hmem (by subst e; exact List.mem_cons_self _ _)
    have hmem2 : '=' ∉ cs := fun m => hmem (List.mem_cons_of_mem _ m)
    have hsp : splitFirst '=' (c :: (cs ++ '=' :: value)) = some (c :: cs, value) := by
      simp [splitFirst, hceq, splitFirst_append '=' cs value hmem2]
    simp [step, dashCore, hsp, hc, hcs, List.headD_cons]
  · intro skip hasPosArg s pre c cs i hhd hlen hmem hpre hc ht
    have hsp : splitFirst '=' (pre ++ c :: cs) = none := splitFirst_of_not_mem '=' _ hmem
    have hb := bundleLoop_err skip pre s.opts s.err c cs i hpre hc ht
    have hb1 : (bundleLoop skip s.opts s.err (pre ++ c :: cs)).2.1
        = ("option requires value: ".toList) ++ [c] := by rw [hb]
    have hb2 : (bundleLoop skip s.opts s.err (pre ++ c :: cs)).2.2 = false := by rw [hb]
    have hne : pre ++ c :: cs ≠ [] := by cases pre <;> simp
    have hlen1 : ¬((pre ++ c :: cs).length = 1) := by omega
    simp at hhd
    simp [step, dashCore, hsp, hhd, hne, hlen1, hb1, hb2]
    intro hcontra
    simp [List.length_append] at hlen
    omega

end CLP

namespace CLP

/-- C5 witness: the theorem applied to the token `-ab=c` over an empty
registry, and to the token `-fv` over a registry where `f` is a flag and `v`
a value option — the latter fails naming `v`. -/
theorem c5_witness :
    step false false ⟨[], [], 0, none, false⟩ ("-ab=c".toList)
      = .fail [] ("flag/argument mix disallowed: -ab=c".toList) ∧
    step false false ⟨[fFlagOpt, vParamOpt], [], 0, none, false⟩ ("-fv".toList)
      = .fail (bundleLoop false [fFlagOpt, vParamOpt] [] ("fv".toList)).1
          ("option requires value: v".toList) :=
  ⟨c5_bundle.1 false false ⟨[], [], 0, none, false⟩ 'a' ("b".toList) ("c".toList)
      (by decide) (by decide) (by decide),
   c5_bundle.2 false false ⟨[fFlagOpt, vParamOpt], [], 0, none, false⟩ ['f'] 'v' [] 1
      (by decide) (by decide) (by decide)
      (by
        intro d hd
        rcases List.mem_singleton.mp hd with rfl
        exact Or.inl ⟨0, by decide, by decide⟩)
      (by decide) (by decide)⟩

/-! ### C6 amended -/

theorem fmtArgErr_ne_nil (err msg arg : Str) (hm : msg ≠ []) :
    fmtArgErr err msg arg ≠ [] := by
  unfold fmtArgErr
  cases err with
  | nil =>
    cases msg with
    | nil => exact absurd rfl hm
    | cons c cs => simp
  | cons c cs => simp

/-- C6 amended: after the token loop completes, if an option is still
pending its value and was never marked `parsed` during the whole run, then
`parse` fails with the `option requires value` error citing the last
consumed token (`argv[argc-1]`), and the error text is non-empty. -/
theorem c6_amended (p : Parser) (a0 : Str) (ts : List Str) (i : Nat)
    (hok : (runTokens p.skipUnknown (hasPosArgOf p.opts) (initState p) ts).ok = true)
    (hlast : (runTokens p.skipUnknown (hasPosArgOf p.opts) (initState p) ts).lastOption
      = some i)
    (hnp : (getAt (runTokens p.skipUnknown (hasPosArgOf p.opts) (initState p) ts).opts
      i).parsed = false) :
    Parser.parse p (a0 :: ts)
      = some (⟨basename a0, p.skipUnknown,
          (runTokens p.skipUnknown (hasPosArgOf p.opts) (initState p) ts).opts,
          fmtArgErr (runTokens p.skipUnknown (hasPosArgOf p.opts) (initState p) ts).err
            ("option requires value".toList) (ts.getLastD a0)⟩, false)
      ∧ fmtArgErr (runTokens p.skipUnknown (hasPosArgOf p.opts) (initState p) ts).err
          ("option requires value".toList) (ts.getLastD a0) ≠ [] := by
  constructor
  · show some (parseArgs p a0 ts) = _
    simp only [parseArgs, hok, hlast, hnp]
    simp
  · exact fmtArgErr_ne_nil _ _ _ (by decide)

/-- C6 witness: the amended theorem at `["prog", "--level"]` with a fresh
int-bound `--level`: parse fails citing `--level` and the error is
non-empty. -/
theorem c6_witness :
    Parser.parse intOptParser ["prog".toList, "--level".toList]
      = some (⟨"prog".toList, false, [levelOpt],
          ("option requires value: --level".toList)⟩, false)
      ∧ ("option requires value: --level".toList : Str) ≠ [] :=
  c6_amended intOptParser ("prog".toList) [("--level".toList)] 0
    (by decide) (by decide) (by decide)

end CLP
